import Mathlib

/-!
Verification of the SDL painter rendering core (`src/video/sdl/sdl_painter.cpp`)
of the SuperTux repository: a shallow embedding of the blend-mode resolver,
the texture-wraparound renderer, the gradient stepper, the filled-rect /
triangle rasterizers, the clear operation and the pixel read-back, together
with theorems about them.

Machine integers (`int`) are modelled as `Int`; C++ integer division and
remainder (which truncate toward zero) are `Int.tdiv` / `Int.tmod`.
`float` values are modelled as exact rationals (`ℚ`); a C++
`static_cast<int>(float)` is `castInt`, truncation toward zero.
-/

/-- Modelled from the spec: `math/rect.hpp` is not among the sources.  An
integer rectangle given by its two corner points (left,top) and
(right,bottom); spec §3: invariant p1 ≤ p2, empty when equal on an axis
(degenerate rectangles with negative extent are also empty). -/
structure Rect where
  left : Int
  top : Int
  right : Int
  bottom : Int
deriving DecidableEq

/-- Modelled from the spec: width of a `Rect` (size extraction, spec §3). -/
def Rect.get_width (r : Rect) : Int := r.right - r.left

/-- Modelled from the spec: height of a `Rect` (size extraction, spec §3). -/
def Rect.get_height (r : Rect) : Int := r.bottom - r.top

/-- Modelled from the spec: a `Rect` is empty when it has no area, i.e. when
its corners coincide on an axis (spec §3), extended to degenerate rectangles
whose extent is negative. -/
def Rect.empty (r : Rect) : Bool := r.get_width ≤ 0 || r.get_height ≤ 0

/-- Modelled from the spec: point containment for `Rect` (spec §3 supports
"containment (point, rect)"); the corner (x,y) lies within the half-open
rectangle. -/
def Rect.containsPoint (r : Rect) (x y : Int) : Bool :=
  r.left ≤ x && x < r.right && r.top ≤ y && y < r.bottom

/-- Modelled from the spec: rectangle containment for `Rect` (spec §3):
the other rectangle's corners lie between this rectangle's corners. -/
def Rect.containsRect (r other : Rect) : Bool :=
  r.left ≤ other.left && other.right ≤ r.right &&
  r.top ≤ other.top && other.bottom ≤ r.bottom

/-- Modelled from the spec: the `Rect(left, top, Size(w, h))` constructor:
a rectangle from its top-left corner and its size. -/
def Rect.ofSize (x y w h : Int) : Rect := ⟨x, y, x + w, y + h⟩

/-- Modelled from the spec: `math::positive_mod` from `math/util.hpp` (not
among the sources); spec §3: values are wrapped into `[0, texture_width)`
using floored (non-truncating) modulo.  `Int.emod` yields exactly the
representative in `[0, rhs)` for `rhs > 0`. -/
def positive_mod (lhs rhs : Int) : Int := lhs % rhs

/-- Translation of a rectangle by an offset; used to express the position of
a wrapped sub-rectangle back in the coordinate space of the original
source rectangle. -/
def Rect.translate (r : Rect) (off : Int × Int) : Rect :=
  ⟨r.left + off.1, r.top + off.2, r.right + off.1, r.bottom + off.2⟩

/-- The OpenGL blend factors that `blend2sdl` inspects (the `Blend` members
are GLenum values; spec §3 lists this fixed factor set). -/
inductive GLFactor where
  | one
  | zero
  | src_alpha
  | one_minus_src_alpha
  | dst_color
deriving DecidableEq

/-- Modelled from the spec: the `Blend` pair (source factor, destination
factor), spec §3. -/
structure Blend where
  sfactor : GLFactor
  dfactor : GLFactor
deriving DecidableEq

/-- The SDL blend modes targeted by `blend2sdl`. -/
inductive SDLBlendMode where
  | none
  | blend
  | add
  | mod
deriving DecidableEq

/-- `blend2sdl` from sdl_painter.cpp: resolves a `Blend` pair to an SDL
blend mode.  The second component is the list of emitted `log_warning`
diagnostics; each diagnostic carries the two unmatched factors
(`sfactor=... dfactor=...`). -/
def blend2sdl (blend : Blend) : SDLBlendMode × List (GLFactor × GLFactor) :=
  if blend.sfactor = .one ∧ blend.dfactor = .zero then
    (.none, [])
  else if blend.sfactor = .src_alpha ∧ blend.dfactor = .one_minus_src_alpha then
    (.blend, [])
  else if blend.sfactor = .src_alpha ∧ blend.dfactor = .one then
    (.add, [])
  else if blend.sfactor = .dst_color ∧ blend.dfactor = .zero then
    (.mod, [])
  else
    (.blend, [(blend.sfactor, blend.dfactor)])

/-- `intersect` from sdl_painter.cpp: the rectangle where `srcrect` and
`imgrect` overlap plus the four remainder rectangles, returned in the
order inside, top, left, right, bottom. -/
def intersect (srcrect imgrect : Rect) : Rect × Rect × Rect × Rect × Rect :=
  (⟨max srcrect.left imgrect.left, max srcrect.top imgrect.top,
    min srcrect.right imgrect.right, min srcrect.bottom imgrect.bottom⟩,
   ⟨srcrect.left, srcrect.top,
    srcrect.right, imgrect.top⟩,
   ⟨srcrect.left, max srcrect.top imgrect.top,
    imgrect.left, min srcrect.bottom imgrect.bottom⟩,
   ⟨imgrect.right, max srcrect.top imgrect.top,
    srcrect.right, min srcrect.bottom imgrect.bottom⟩,
   ⟨srcrect.left, imgrect.bottom,
    srcrect.right, srcrect.bottom⟩)

/-- `relative_map` from sdl_painter.cpp: maps the area covered by `inside`
in `srcrect` to `dstrect`; C++ `int` division truncates toward zero. -/
def relative_map (inside srcrect dstrect : Rect) : Rect :=
  ⟨dstrect.left + Int.tdiv ((inside.left - srcrect.left) * dstrect.get_width) srcrect.get_width,
   dstrect.top + Int.tdiv ((inside.top - srcrect.top) * dstrect.get_height) srcrect.get_height,
   dstrect.left + Int.tdiv ((inside.right - srcrect.left) * dstrect.get_width) srcrect.get_width,
   dstrect.top + Int.tdiv ((inside.bottom - srcrect.top) * dstrect.get_height) srcrect.get_height⟩

/-- `render_texture` from sdl_painter.cpp.  The result is the list of
`SDL_RenderCopy(texture, srcrect, dstrect)` calls it performs, in order.
The C++ recursion carries no fuel; `fuel` makes the recursion structural,
and `none` means the fuel ran out before the recursion bottomed out. -/
def render_texture (fuel : Nat) (imgrect srcrect dstrect : Rect) :
    Option (List (Rect × Rect)) :=
  match fuel with
  | 0 => none
  | fuel + 1 =>
    if srcrect.empty || dstrect.empty then
      some []
    else if imgrect.containsRect srcrect then
      some [(srcrect, dstrect)]
    else
      match intersect srcrect imgrect with
      | (inside, rest0, rest1, rest2, rest3) =>
        let recur := fun (rect : Rect) =>
          render_texture fuel imgrect
            (Rect.ofSize (positive_mod rect.left imgrect.get_width)
                         (positive_mod rect.top imgrect.get_height)
                         rect.get_width rect.get_height)
            (relative_map rect srcrect dstrect)
        do
          let l0 ← render_texture fuel imgrect inside (relative_map inside srcrect dstrect)
          let l1 ← recur rest0
          let l2 ← recur rest1
          let l3 ← recur rest2
          let l4 ← recur rest3
          some (l0 ++ l1 ++ l2 ++ l3 ++ l4)

/-- `render_texture` instrumented with the ghost offset `off`: the translation
from the current (wrapped) coordinate space back to the coordinate space of
the original source rectangle.  Each emitted blit additionally records the
sub-rectangle of the original source rectangle it renders (first component);
the second and third components are exactly the `SDL_RenderCopy` arguments
of `render_texture`. -/
def render_texture_t (fuel : Nat) (imgrect srcrect dstrect : Rect) (off : Int × Int) :
    Option (List (Rect × Rect × Rect)) :=
  match fuel with
  | 0 => none
  | fuel + 1 =>
    if srcrect.empty || dstrect.empty then
      some []
    else if imgrect.containsRect srcrect then
      some [(srcrect.translate off, srcrect, dstrect)]
    else
      match intersect srcrect imgrect with
      | (inside, rest0, rest1, rest2, rest3) =>
        let recur := fun (rect : Rect) =>
          render_texture_t fuel imgrect
            (Rect.ofSize (positive_mod rect.left imgrect.get_width)
                         (positive_mod rect.top imgrect.get_height)
                         rect.get_width rect.get_height)
            (relative_map rect srcrect dstrect)
            (off.1 + (rect.left - positive_mod rect.left imgrect.get_width),
             off.2 + (rect.top - positive_mod rect.top imgrect.get_height))
        do
          let l0 ← render_texture_t fuel imgrect inside (relative_map inside srcrect dstrect) off
          let l1 ← recur rest0
          let l2 ← recur rest1
          let l3 ← recur rest2
          let l4 ← recur rest3
          some (l0 ++ l1 ++ l2 ++ l3 ++ l4)

/-- C++ `static_cast<int>` applied to a `float` value modelled as a rational:
truncation toward zero. -/
def castInt (q : ℚ) : ℤ := Int.tdiv q.num q.den

/-- Modelled from the spec: the engine `Color` (video/color.hpp is not among
the sources), four normalized channels (spec §3, §6: "the engine's
normalized color representation"). -/
structure Color where
  red : ℚ
  green : ℚ
  blue : ℚ
  alpha : ℚ
deriving DecidableEq

/-- An 8-bit-per-channel color as handed to `SDL_SetRenderDrawColor` /
`SDL_SetTextureColorMod`. -/
structure SDLColor where
  r : ℤ
  g : ℤ
  b : ℤ
  a : ℤ
deriving DecidableEq

/-- The `static_cast<Uint8>(channel * 255)` conversion applied to each
channel of a color, as done throughout sdl_painter.cpp. -/
def colorU8 (c : Color) : SDLColor :=
  ⟨castInt (c.red * 255), castInt (c.green * 255),
   castInt (c.blue * 255), castInt (c.alpha * 255)⟩

/-- Modelled from the spec: `Rectf`, the floating-point rectangle with corner
points p1 and p2 (spec §3); sdl_painter.cpp also reuses it as an edge
container for the triangle rasterizer. -/
structure Rectf where
  p1x : ℚ
  p1y : ℚ
  p2x : ℚ
  p2y : ℚ
deriving DecidableEq

/-- `make_edge` from sdl_painter.cpp: canonicalize an edge so that its first
point has the smaller y coordinate. -/
def make_edge (x1 y1 x2 y2 : ℤ) : Rectf :=
  if y1 < y2 then
    ⟨(x1 : ℚ), (y1 : ℚ), (x2 : ℚ), (y2 : ℚ)⟩
  else
    ⟨(x2 : ℚ), (y2 : ℚ), (x1 : ℚ), (y1 : ℚ)⟩

/-- `draw_span_between_edges` from sdl_painter.cpp: the horizontal scanlines
(x-start, x-end, y) drawn between edge `e1` (the long edge) and edge `e2`
(a short edge); returns no lines when either edge has zero vertical span.
The C++ loop accumulates `factor1`/`factor2` by repeated addition of the
step; iteration `k` has factors `factor1₀ + k·step1` and `k·step2`. -/
def draw_span_between_edges (e1 e2 : Rectf) : List (ℤ × ℤ × ℤ) :=
  let e1ydiff := e1.p2y - e1.p1y
  if e1ydiff = 0 then []
  else
    let e2ydiff := e2.p2y - e2.p1y
    if e2ydiff = 0 then []
    else
      let e1xdiff := e1.p2x - e1.p1x
      let e2xdiff := e2.p2x - e2.p1x
      let factor1 := (e2.p1y - e1.p1y) / e1ydiff
      let factorStep1 := 1 / e1ydiff
      let factorStep2 := 1 / e2ydiff
      (List.range (castInt e2.p2y - castInt e2.p1y).toNat).map fun (k : ℕ) =>
        (castInt (e1.p1x + e1xdiff * (factor1 + (k : ℚ) * factorStep1)),
         castInt (e2.p1x + e2xdiff * ((k : ℚ) * factorStep2)),
         castInt e2.p1y + (k : ℤ))

/-- Modelled from the spec: the `TriangleRequest` draw request (three points
and a color), spec §3. -/
structure TriangleRequest where
  pos1x : ℚ
  pos1y : ℚ
  pos2x : ℚ
  pos2y : ℚ
  pos3x : ℚ
  pos3y : ℚ
  color : Color

/-- `SDLPainter::draw_triangle` from sdl_painter.cpp: decompose the triangle
into three canonicalized edges, pick the edge with the greatest vertical
span as the long edge (ties keep the earliest index, initial best length 0),
and draw the spans between the long edge and each of the two short edges.
The result is the list of drawn scanlines. -/
def draw_triangle (request : TriangleRequest) : List (ℤ × ℤ × ℤ) :=
  let x1 := castInt request.pos1x
  let y1 := castInt request.pos1y
  let x2 := castInt request.pos2x
  let y2 := castInt request.pos2y
  let x3 := castInt request.pos3x
  let y3 := castInt request.pos3y
  let e0 := make_edge x1 y1 x2 y2
  let e1 := make_edge x2 y2 x3 y3
  let e2 := make_edge x3 y3 x1 y1
  let edge := fun (i : ℕ) => if i = 0 then e0 else if i = 1 then e1 else e2
  let len := fun (i : ℕ) => castInt ((edge i).p2y - (edge i).p1y)
  let st1 := if len 0 > 0 then (len 0, 0) else ((0 : ℤ), (0 : ℕ))
  let st2 := if len 1 > st1.1 then (len 1, 1) else st1
  let st3 := if len 2 > st2.1 then (len 2, 2) else st2
  let longEdge := st3.2
  draw_span_between_edges (edge longEdge) (edge ((longEdge + 1) % 3)) ++
    draw_span_between_edges (edge longEdge) (edge ((longEdge + 2) % 3))

/-- Modelled from the spec: the gradient direction enumeration (spec §3). -/
inductive GradientDirection where
  | vertical
  | horizontal
  | vertical_sector
  | horizontal_sector
deriving DecidableEq

/-- An integer rectangle in the `SDL_Rect` representation: top-left corner
plus width and height. -/
structure SDLRect where
  x : ℤ
  y : ℤ
  w : ℤ
  h : ℤ
deriving DecidableEq

/-- The maximum absolute per-channel difference of two colors, computed by
`SDLPainter::draw_gradient` over red, green, blue and alpha. -/
def max_channel_delta (top bottom : Color) : ℚ :=
  max (max |top.red - bottom.red| |top.green - bottom.green|)
      (max |top.blue - bottom.blue| |top.alpha - bottom.alpha|)

/-- The gradient step count of `SDLPainter::draw_gradient`:
`n = max(static_cast<int>(max_channel_delta * 255), 1)`. -/
def gradient_steps (top bottom : Color) : ℤ :=
  max (castInt (max_channel_delta top bottom * 255)) 1

/-- The band rectangle computed by iteration `i` of the loop in
`SDLPainter::draw_gradient`: a horizontal strip for the VERTICAL directions,
a vertical strip for the HORIZONTAL directions. -/
def gradient_band_rect (direction : GradientDirection) (region : Rectf)
    (n i : ℤ) : SDLRect :=
  if direction = .vertical ∨ direction = .vertical_sector then
    let y := castInt (region.p2y * (i : ℚ) / (n : ℚ))
    ⟨castInt region.p1x, y, castInt region.p2x,
     castInt (region.p2y * ((i : ℚ) + 1) / (n : ℚ) - (y : ℚ))⟩
  else
    let x := castInt (region.p2x * (i : ℚ) / (n : ℚ))
    ⟨x, castInt region.p1y,
     castInt (region.p2x * ((i : ℚ) + 1) / (n : ℚ) - (x : ℚ)), castInt region.p2y⟩

/-- The fill color computed by iteration `i` of the loop in
`SDLPainter::draw_gradient`; the `*_SECTOR` directions correct the
interpolation fraction by `begin_percentage`. -/
def gradient_band_color (top bottom : Color) (direction : GradientDirection)
    (region : Rectf) (n i : ℤ) : SDLColor :=
  let p : ℚ := ((i : ℚ) + 1) / (n : ℚ)
  if direction = .horizontal_sector ∨ direction = .vertical_sector then
    let bp := region.p1x * (-1) / region.p2x
    ⟨castInt (((1 - bp - p) * top.red + (p + bp) * bottom.red) * 255),
     castInt (((1 - bp - p) * top.green + (p + bp) * bottom.green) * 255),
     castInt (((1 - bp - p) * top.blue + (p + bp) * bottom.blue) * 255),
     castInt (((1 - bp - p) * top.alpha + (p + bp) * bottom.alpha) * 255)⟩
  else
    ⟨castInt (((1 - p) * top.red + p * bottom.red) * 255),
     castInt (((1 - p) * top.green + p * bottom.green) * 255),
     castInt (((1 - p) * top.blue + p * bottom.blue) * 255),
     castInt (((1 - p) * top.alpha + p * bottom.alpha) * 255)⟩

/-- `SDLPainter::draw_gradient` from sdl_painter.cpp: the list of
`SDL_RenderFillRect` calls (band rectangle and draw color) issued by the
loop, in order. -/
def draw_gradient (top bottom : Color) (direction : GradientDirection)
    (region : Rectf) : List (SDLRect × SDLColor) :=
  let n := gradient_steps top bottom
  (List.range n.toNat).map fun (i : ℕ) =>
    (gradient_band_rect direction region n (i : ℤ),
     gradient_band_color top bottom direction region n (i : ℤ))

/-- The coordinate along the gradient axis at which a band starts:
`y` for the VERTICAL directions, `x` for the HORIZONTAL ones. -/
def gradAxisStart (direction : GradientDirection) (r : SDLRect) : ℤ :=
  if direction = .vertical ∨ direction = .vertical_sector then r.y else r.x

/-- The extent of a band along the gradient axis: `h` for the VERTICAL
directions, `w` for the HORIZONTAL ones. -/
def gradAxisExtent (direction : GradientDirection) (r : SDLRect) : ℤ :=
  if direction = .vertical ∨ direction = .vertical_sector then r.h else r.w

/-- The p2 coordinate of the gradient region along the gradient axis. -/
def gradAxisP2 (direction : GradientDirection) (region : Rectf) : ℚ :=
  if direction = .vertical ∨ direction = .vertical_sector then region.p2y else region.p2x

/-- Modelled from the spec: the `FillRectRequest` draw request (position,
size, color, corner radius), spec §3. -/
structure FillRectRequest where
  posx : ℚ
  posy : ℚ
  sizex : ℚ
  sizey : ℚ
  radius : ℚ
  color : Color

/-- The backend fill issued by `SDLPainter::draw_filled_rect`: either one
batched `SDL_RenderFillRects` call (rounded-corner tessellation), a single
`SDL_RenderFillRect` call, or no call at all. -/
inductive FillOutput where
  | batch (rects : List SDLRect) (color : SDLColor)
  | single (rect : SDLRect) (color : SDLColor)
  | nothing
deriving DecidableEq

/-- The integer `SDL_Rect` built at the start of `SDLPainter::draw_filled_rect`
from the request's float position and size. -/
def fill_rect_sdl (request : FillRectRequest) : SDLRect :=
  ⟨castInt request.posx, castInt request.posy,
   castInt request.sizex, castInt request.sizey⟩

/-- The effective corner radius computed by `SDLPainter::draw_filled_rect`:
`std::min(std::min(rect.h / 2, rect.w / 2), static_cast<int>(request.radius))`
with C++ truncating integer division. -/
def effective_radius (request : FillRectRequest) : ℤ :=
  min (min (Int.tdiv (fill_rect_sdl request).h 2) (Int.tdiv (fill_rect_sdl request).w 2))
      (castInt request.radius)

/-- `SDLPainter::draw_filled_rect` from sdl_painter.cpp.  The float
`sqrtf` has no exact rational counterpart, so the embedding takes the
square-root routine as a parameter `sq`; it is applied to `1 - p·p` exactly
where the source calls `sqrtf(1.0f - p * p)`. -/
def draw_filled_rect (sq : ℚ → ℚ) (request : FillRectRequest) : FillOutput :=
  let rect := fill_rect_sdl request
  let radius := effective_radius request
  if radius ≠ 0 then
    let slices := radius
    let corner_rects :=
      (List.range slices.toNat).map (fun (i : ℕ) =>
        let p : ℚ := ((i : ℚ) + 1/2) / (slices : ℚ)
        let xoff : ℤ := radius - castInt (sq (1 - p * p) * (radius : ℚ))
        let tmp : SDLRect := ⟨rect.x + xoff, rect.y + (radius - (i : ℤ)), rect.w - 2 * xoff, 1⟩
        let tmp2 : SDLRect := ⟨rect.x + xoff, rect.y + rect.h - radius + (i : ℤ), rect.w - 2 * xoff, 1⟩
        if tmp2.y ≠ tmp.y then [tmp, tmp2] else [tmp])
    let center_rects :=
      if 2 * radius < rect.h then
        [(⟨rect.x, rect.y + radius + 1, rect.w, rect.h - 2 * radius - 1⟩ : SDLRect)]
      else []
    .batch (corner_rects.flatten ++ center_rects) (colorU8 request.color)
  else
    if rect.w ≠ 0 ∧ rect.h ≠ 0 then
      .single rect (colorU8 request.color)
    else
      .nothing

/-- Point membership in an `SDL_Rect` (half-open on both axes). -/
def SDLRect.memB (r : SDLRect) (px py : ℤ) : Bool :=
  r.x ≤ px && px < r.x + r.w && r.y ≤ py && py < r.y + r.h

/-- The backend renderer commands issued by `SDLPainter::clear`. -/
inductive RenderCmd where
  | setDrawColor (c : SDLColor)
  | setBlendMode (m : SDLBlendMode)
  | fillRect (r : SDLRect)
  | renderClear

/-- Modelled from the spec: the state of the backend renderer (spec §6): a
framebuffer of pixels plus the current draw color, blend mode and optional
clip rectangle. -/
structure BackendState where
  fb : ℤ → ℤ → SDLColor
  drawColor : SDLColor
  blendMode : SDLBlendMode
  clip : Option SDLRect

/-- Whether a point passes the current clip rectangle (no clip set means
"no clipping", spec §3). -/
def inClip (clip : Option SDLRect) (px py : ℤ) : Bool :=
  match clip with
  | Option.none => true
  | Option.some r => r.memB px py

/-- Modelled from the spec: the pixel-level semantics of the backend
primitives (spec §6): `fillRect` writes the draw color to the pixels inside
the rectangle that pass the clip, combining through the current blend mode
(`combine` stands for the unspecified blending arithmetic of the non-NONE
modes); `renderClear` overwrites the whole render target, ignoring both
the clip rectangle and the blend mode. -/
def applyCmd (combine : SDLBlendMode → SDLColor → SDLColor → SDLColor)
    (s : BackendState) : RenderCmd → BackendState
  | .setDrawColor c => { s with drawColor := c }
  | .setBlendMode m => { s with blendMode := m }
  | .fillRect r =>
    { s with fb := fun px py =>
        if r.memB px py && inClip s.clip px py then
          (if s.blendMode = .none then s.drawColor
           else combine s.blendMode (s.fb px py) s.drawColor)
        else s.fb px py }
  | .renderClear => { s with fb := fun _ _ => s.drawColor }

/-- Run a command list against a backend state. -/
def runCmds (combine : SDLBlendMode → SDLColor → SDLColor → SDLColor)
    (s : BackendState) (cmds : List RenderCmd) : BackendState :=
  cmds.foldl (applyCmd combine) s

/-- `SDLPainter::clear` from sdl_painter.cpp: set the draw color; when a clip
rectangle is stored, switch the blend mode to NONE and fill that rectangle,
otherwise issue a full `SDL_RenderClear`. -/
def SDLPainter_clear (cliprect : Option SDLRect) (color : Color) : List RenderCmd :=
  RenderCmd.setDrawColor (colorU8 color) ::
    (match cliprect with
     | Option.some rect => [RenderCmd.setBlendMode .none, RenderCmd.fillRect rect]
     | Option.none => [RenderCmd.renderClear])

/-- Modelled from the spec: `Color::from_rgb888` (video/color.hpp is not among
the sources): converts backend 8-bit channels to the engine's normalized
color representation (spec §6). -/
def from_rgb888 (r g b : ℤ) : Color :=
  ⟨(r : ℚ) / 255, (g : ℚ) / 255, (b : ℚ) / 255, 1⟩

/-- `SDLPainter::get_pixel` from sdl_painter.cpp.  `readOk` is whether
`SDL_RenderReadPixels` succeeded (returned 0); `readBytes` are the four bytes
it stores into the stack buffer `pixel` on success; `initialBuf` is the
(never initialized) previous content of that buffer; `slot` is the previous
value of `*request.color_ptr`.  The result is the new value of the color
slot and the number of emitted `log_warning` diagnostics: the code logs on
failure but then unconditionally overwrites the slot from the buffer. -/
def get_pixel (readOk : Bool) (readBytes initialBuf : ℤ × ℤ × ℤ × ℤ)
    (slot : Color) : Color × Nat :=
  let pixel := if readOk then readBytes else initialBuf
  let warnings := if readOk then 0 else 1
  (from_rgb888 pixel.2.2.1 pixel.2.1 pixel.1, warnings)

/-- The conclusion of the wraparound tiling invariant for one call of
`render_texture_t`: the original-space rectangles of the emitted blits
exactly tile the (translated) source rectangle — they cover it and are
pairwise disjoint — and each emitted texture-space source rectangle is the
original-space rectangle wrapped by floored modulo with the size kept. -/
def TileOutput (W H : Int) (src : Rect) (off : Int × Int)
    (lst : List (Rect × Rect × Rect)) : Prop :=
  (∀ x y, (src.translate off).containsPoint x y = true ↔
      ∃ t ∈ lst, t.1.containsPoint x y = true)
  ∧ lst.Pairwise (fun a b => ∀ x y,
      ¬(a.1.containsPoint x y = true ∧ b.1.containsPoint x y = true))
  ∧ (∀ t ∈ lst, t.2.1.left = positive_mod t.1.left W
      ∧ t.2.1.top = positive_mod t.1.top H
      ∧ t.2.1.get_width = t.1.get_width
      ∧ t.2.1.get_height = t.1.get_height)

theorem render_texture_t_proj (fuel : Nat) (imgrect srcrect dstrect : Rect) (off : Int × Int) :
    render_texture fuel imgrect srcrect dstrect
      = (render_texture_t fuel imgrect srcrect dstrect off).map
          (List.map (fun t => (t.2.1, t.2.2))) := by
  induction fuel generalizing srcrect dstrect off with
  | zero => rfl
  | succ fuel ih =>
    rw [render_texture, render_texture_t]
    by_cases h1 : srcrect.empty || dstrect.empty
    · simp [h1]
    · by_cases h2 : imgrect.containsRect srcrect
      · simp [h1, h2]
      · simp only [h1, h2, if_false, Bool.false_eq_true]
        rcases hi : intersect srcrect imgrect with ⟨inside, rest0, rest1, rest2, rest3⟩
        simp only [bind, Option.bind]
        rw [ih inside _ off]
        cases render_texture_t fuel imgrect inside (relative_map inside srcrect dstrect) off with
        | none => simp
        | some l0 =>
          simp only [Option.map_some]
          rw [ih _ _ (off.1 + (rest0.left - positive_mod rest0.left imgrect.get_width),
                      off.2 + (rest0.top - positive_mod rest0.top imgrect.get_height))]
          cases render_texture_t fuel imgrect
              (Rect.ofSize (positive_mod rest0.left imgrect.get_width)
                (positive_mod rest0.top imgrect.get_height) rest0.get_width rest0.get_height)
              (relative_map rest0 srcrect dstrect)
              (off.1 + (rest0.left - positive_mod rest0.left imgrect.get_width),
               off.2 + (rest0.top - positive_mod rest0.top imgrect.get_height)) with
          | none => simp
          | some l1 =>
            simp only [Option.map_some]
            rw [ih _ _ (off.1 + (rest1.left - positive_mod rest1.left imgrect.get_width),
                        off.2 + (rest1.top - positive_mod rest1.top imgrect.get_height))]
            cases render_texture_t fuel imgrect
                (Rect.ofSize (positive_mod rest1.left imgrect.get_width)
                  (positive_mod rest1.top imgrect.get_height) rest1.get_width rest1.get_height)
                (relative_map rest1 srcrect dstrect)
                (off.1 + (rest1.left - positive_mod rest1.left imgrect.get_width),
                 off.2 + (rest1.top - positive_mod rest1.top imgrect.get_height)) with
            | none => simp
            | some l2 =>
              simp only [Option.map_some]
              rw [ih _ _ (off.1 + (rest2.left - positive_mod rest2.left imgrect.get_width),
                          off.2 + (rest2.top - positive_mod rest2.top imgrect.get_height))]
              cases render_texture_t fuel imgrect
                  (Rect.ofSize (positive_mod rest2.left imgrect.get_width)
                    (positive_mod rest2.top imgrect.get_height) rest2.get_width rest2.get_height)
                  (relative_map rest2 srcrect dstrect)
                  (off.1 + (rest2.left - positive_mod rest2.left imgrect.get_width),
                   off.2 + (rest2.top - positive_mod rest2.top imgrect.get_height)) with
              | none => simp
              | some l3 =>
                simp only [Option.map_some]
                rw [ih _ _ (off.1 + (rest3.left - positive_mod rest3.left imgrect.get_width),
                            off.2 + (rest3.top - positive_mod rest3.top imgrect.get_height))]
                cases render_texture_t fuel imgrect
                    (Rect.ofSize (positive_mod rest3.left imgrect.get_width)
                      (positive_mod rest3.top imgrect.get_height) rest3.get_width rest3.get_height)
                    (relative_map rest3 srcrect dstrect)
                    (off.1 + (rest3.left - positive_mod rest3.left imgrect.get_width),
                     off.2 + (rest3.top - positive_mod rest3.top imgrect.get_height)) with
                | none => simp
                | some l4 => simp

/-- C++ truncating division is monotone in the numerator for a positive
denominator. -/
theorem Int.tdiv_le_tdiv_of_le {a b : Int} (c : Int) (hc : 0 < c) (h : a ≤ b) :
    a.tdiv c ≤ b.tdiv c := by
  rcases le_or_lt 0 a with ha | ha
  · rw [Int.tdiv_eq_ediv ha hc.le, Int.tdiv_eq_ediv (ha.trans h) hc.le]
    exact Int.ediv_le_ediv hc h
  · rcases le_or_lt 0 b with hb | hb
    · have h1 : a.tdiv c = -((-a).tdiv c) := by rw [Int.neg_tdiv, neg_neg]
      have h2 : 0 ≤ (-a).tdiv c := Int.tdiv_nonneg (by omega) hc.le
      have h3 : 0 ≤ b.tdiv c := Int.tdiv_nonneg hb hc.le
      omega
    · have h1 : a.tdiv c = -((-a).tdiv c) := by rw [Int.neg_tdiv, neg_neg]
      have h2 : b.tdiv c = -((-b).tdiv c) := by rw [Int.neg_tdiv, neg_neg]
      have h4 : (-b).tdiv c ≤ (-a).tdiv c := by
        rw [Int.tdiv_eq_ediv (by omega) hc.le, Int.tdiv_eq_ediv (by omega) hc.le]
        exact Int.ediv_le_ediv hc (by omega)
      omega

theorem castInt_of_nonneg {q : ℚ} (h : 0 ≤ q) : castInt q = ⌊q⌋ := by
  rw [Rat.floor_def, castInt]
  exact Int.tdiv_eq_ediv (Rat.num_nonneg.2 h) (by positivity)

/-- C3: `blend2sdl` is total on factor pairs: (ONE,ZERO) ↦ NONE,
(SRC_ALPHA,ONE_MINUS_SRC_ALPHA) ↦ BLEND, (SRC_ALPHA,ONE) ↦ ADD,
(DST_COLOR,ZERO) ↦ MOD, each without diagnostics, and every other pair
maps to BLEND (alpha blending) while emitting exactly one diagnostic
naming the two unmatched factors. -/
theorem blend2sdl_total :
    blend2sdl ⟨.one, .zero⟩ = (.none, []) ∧
    blend2sdl ⟨.src_alpha, .one_minus_src_alpha⟩ = (.blend, []) ∧
    blend2sdl ⟨.src_alpha, .one⟩ = (.add, []) ∧
    blend2sdl ⟨.dst_color, .zero⟩ = (.mod, []) ∧
    ∀ b : Blend,
      ¬((b.sfactor = .one ∧ b.dfactor = .zero) ∨
        (b.sfactor = .src_alpha ∧ b.dfactor = .one_minus_src_alpha) ∨
        (b.sfactor = .src_alpha ∧ b.dfactor = .one) ∨
        (b.sfactor = .dst_color ∧ b.dfactor = .zero)) →
      blend2sdl b = (.blend, [(b.sfactor, b.dfactor)]) := by
  refine ⟨rfl, rfl, rfl, rfl, ?_⟩
  rintro ⟨s, d⟩ h
  cases s <;> cases d <;> simp_all [blend2sdl]

/-- Witness for C3: the unmatched pair (ZERO, ONE) falls back to alpha
blending with one diagnostic naming both factors. -/
theorem blend2sdl_total_witness :
    blend2sdl ⟨.zero, .one⟩ = (.blend, [(.zero, .one)]) :=
  blend2sdl_total.2.2.2.2 ⟨.zero, .one⟩ (by decide)

/-- C4: whenever `inside` is contained in a non-empty `srcrect` and `dstrect`
is non-empty, the destination-space image computed by `relative_map` lies
within `dstrect`, so the `assert(dstrect.contains(result))` in
sdl_painter.cpp never fires. -/
theorem relative_map_within_dstrect (inside srcrect dstrect : Rect)
    (hin : srcrect.containsRect inside = true)
    (hsrc : srcrect.empty = false)
    (hdst : dstrect.empty = false) :
    dstrect.containsRect (relative_map inside srcrect dstrect) = true := by
  simp only [Rect.containsRect, Rect.empty, Rect.get_width, Rect.get_height,
    Bool.and_eq_true, decide_eq_true_eq, Bool.or_eq_false_iff,
    decide_eq_false_iff_not, not_le] at hin hsrc hdst
  obtain ⟨⟨⟨h1, h2⟩, h3⟩, h4⟩ := hin
  obtain ⟨hsw, hsh⟩ := hsrc
  obtain ⟨hdw, hdh⟩ := hdst
  simp only [relative_map, Rect.containsRect, Rect.get_width, Rect.get_height,
    Bool.and_eq_true, decide_eq_true_eq]
  refine ⟨⟨⟨?_, ?_⟩, ?_⟩, ?_⟩
  · have : 0 ≤ Int.tdiv ((inside.left - srcrect.left) * (dstrect.right - dstrect.left))
        (srcrect.right - srcrect.left) :=
      Int.tdiv_nonneg (mul_nonneg (by omega) (by omega)) (by omega)
    omega
  · have hle : (inside.right - srcrect.left) * (dstrect.right - dstrect.left)
        ≤ (srcrect.right - srcrect.left) * (dstrect.right - dstrect.left) :=
      mul_le_mul_of_nonneg_right (by omega) (by omega)
    have := Int.tdiv_le_tdiv_of_le (srcrect.right - srcrect.left) (by omega) hle
    rw [Int.mul_tdiv_cancel_left _ (by omega : srcrect.right - srcrect.left ≠ 0)] at this
    omega
  · have : 0 ≤ Int.tdiv ((inside.top - srcrect.top) * (dstrect.bottom - dstrect.top))
        (srcrect.bottom - srcrect.top) :=
      Int.tdiv_nonneg (mul_nonneg (by omega) (by omega)) (by omega)
    omega
  · have hle : (inside.bottom - srcrect.top) * (dstrect.bottom - dstrect.top)
        ≤ (srcrect.bottom - srcrect.top) * (dstrect.bottom - dstrect.top) :=
      mul_le_mul_of_nonneg_right (by omega) (by omega)
    have := Int.tdiv_le_tdiv_of_le (srcrect.bottom - srcrect.top) (by omega) hle
    rw [Int.mul_tdiv_cancel_left _ (by omega : srcrect.bottom - srcrect.top ≠ 0)] at this
    omega

/-- Witness for C4: mapping the left half of a 4×2 source rectangle into a
5×3 destination stays within the destination. -/
theorem relative_map_within_dstrect_witness :
    Rect.containsRect ⟨10, 10, 15, 13⟩
      (relative_map ⟨0, 0, 2, 2⟩ ⟨0, 0, 4, 2⟩ ⟨10, 10, 15, 13⟩) = true :=
  relative_map_within_dstrect ⟨0, 0, 2, 2⟩ ⟨0, 0, 4, 2⟩ ⟨10, 10, 15, 13⟩
    (by decide) (by decide) (by decide)

/-- C8: in the triangle fill, a short edge with zero vertical span produces
no scanlines: `draw_span_between_edges` returns the empty list of drawn
lines, silently. -/
theorem draw_span_zero_span_skipped (e1 e2 : Rectf) (h : e2.p2y - e2.p1y = 0) :
    draw_span_between_edges e1 e2 = [] := by
  rw [draw_span_between_edges]
  by_cases h1 : e1.p2y - e1.p1y = 0
  · simp [h1]
  · simp [h1, h]

/-- Witness for C8: an axis-aligned horizontal edge from (0,2) to (5,2)
paired with a long edge from (0,0) to (0,4) draws nothing. -/
theorem draw_span_zero_span_skipped_witness :
    draw_span_between_edges ⟨0, 0, 0, 4⟩ ⟨0, 2, 5, 2⟩ = [] :=
  draw_span_zero_span_skipped ⟨0, 0, 0, 4⟩ ⟨0, 2, 5, 2⟩ (by norm_num)

theorem draw_gradient_length (top bottom : Color) (direction : GradientDirection)
    (region : Rectf) :
    (draw_gradient top bottom direction region).length
      = (gradient_steps top bottom).toNat := by
  simp [draw_gradient]

/-- Counterexample for C5: for top black and bottom 50% gray the maximum
channel delta is 1/2, the claimed band count `max(1, round(255 × 1/2)) = 128`,
but `draw_gradient` emits only `max(1, trunc(127.5)) = 127` bands: the
step count is truncated, not rounded. -/
theorem draw_gradient_count_cex :
    (draw_gradient ⟨0, 0, 0, 1⟩ ⟨1/2, 1/2, 1/2, 1⟩ .vertical ⟨0, 0, 1, 1⟩).length
      ≠ (max 1 (round (255 * max_channel_delta ⟨0, 0, 0, 1⟩ ⟨1/2, 1/2, 1/2, 1⟩))).toNat := by
  have h1 : max_channel_delta ⟨0, 0, 0, 1⟩ ⟨1/2, 1/2, 1/2, 1⟩ = 1/2 := by
    rw [max_channel_delta]
    norm_num
  have h2 : gradient_steps ⟨0, 0, 0, 1⟩ ⟨1/2, 1/2, 1/2, 1⟩ = 127 := by
    rw [gradient_steps, h1]
    norm_num [castInt]
    decide
  rw [draw_gradient_length, h2, h1, round_eq]
  norm_num
  decide

/-- C5 (amended): for every pair of colors, `draw_gradient` emits exactly
`n = max(1, trunc(255 × max_channel_delta(top, bottom)))` bands — the float
step count is truncated toward zero, not rounded — and when top equals
bottom the single band's fill color is exactly that color converted to
8-bit channels. -/
theorem draw_gradient_band_count (top bottom : Color) (direction : GradientDirection)
    (region : Rectf) :
    (draw_gradient top bottom direction region).length
      = (max 1 (castInt (255 * max_channel_delta top bottom))).toNat
    ∧ (top = bottom →
        (draw_gradient top bottom direction region).map Prod.snd = [colorU8 top]) := by
  constructor
  · rw [draw_gradient_length, gradient_steps, mul_comm, max_comm]
  · intro h
    subst h
    have hd : max_channel_delta top top = 0 := by
      simp [max_channel_delta]
    have hn : gradient_steps top top = 1 := by
      rw [gradient_steps, hd]
      norm_num [castInt]
    rw [draw_gradient, hn]
    have hr : List.range (Int.toNat 1) = [0] := rfl
    rw [hr]
    simp only [List.map_cons, List.map_nil]
    congr 1
    simp only [gradient_band_color, colorU8]
    by_cases hdir : direction = .horizontal_sector ∨ direction = .vertical_sector
    · simp only [if_pos hdir, SDLColor.mk.injEq]
      refine ⟨?_, ?_, ?_, ?_⟩ <;> · congr 1; push_cast; ring
    · simp only [if_neg hdir, SDLColor.mk.injEq]
      refine ⟨?_, ?_, ?_, ?_⟩ <;> · congr 1; push_cast; ring

/-- Witness for C5: for top = bottom = opaque red the single emitted band
carries exactly that color in 8-bit channels. -/
theorem draw_gradient_band_count_witness :
    (draw_gradient ⟨1, 0, 0, 1⟩ ⟨1, 0, 0, 1⟩ .vertical ⟨0, 0, 10, 10⟩).map Prod.snd
      = [colorU8 ⟨1, 0, 0, 1⟩] :=
  (draw_gradient_band_count ⟨1, 0, 0, 1⟩ ⟨1, 0, 0, 1⟩ .vertical ⟨0, 0, 10, 10⟩).2 rfl

theorem gradient_steps_pos (top bottom : Color) : 0 < gradient_steps top bottom :=
  lt_of_lt_of_le one_pos (le_max_right _ 1)

theorem castInt_band_chain {P : ℚ} (n i : ℤ) (hn : 0 < n) (hi : 0 ≤ i) (hP : 0 ≤ P) :
    castInt (P * (i : ℚ) / (n : ℚ))
      + castInt (P * ((i : ℚ) + 1) / (n : ℚ) - (castInt (P * (i : ℚ) / (n : ℚ)) : ℚ))
      = castInt (P * ((i : ℚ) + 1) / (n : ℚ)) := by
  have hn' : (0 : ℚ) < (n : ℚ) := by exact_mod_cast hn
  have hi' : (0 : ℚ) ≤ (i : ℚ) := by exact_mod_cast hi
  have h0 : (0 : ℚ) ≤ P * (i : ℚ) / (n : ℚ) :=
    div_nonneg (mul_nonneg hP hi') hn'.le
  have h1 : (0 : ℚ) ≤ P * ((i : ℚ) + 1) / (n : ℚ) :=
    div_nonneg (mul_nonneg hP (by linarith)) hn'.le
  have hmono : P * (i : ℚ) / (n : ℚ) ≤ P * ((i : ℚ) + 1) / (n : ℚ) := by
    gcongr
    linarith
  rw [castInt_of_nonneg h0]
  have h2 : (0 : ℚ) ≤ P * ((i : ℚ) + 1) / (n : ℚ) - (⌊P * (i : ℚ) / (n : ℚ)⌋ : ℚ) := by
    have := Int.floor_le (P * (i : ℚ) / (n : ℚ))
    linarith
  rw [castInt_of_nonneg h2, castInt_of_nonneg h1, Int.floor_sub_int]
  omega

theorem gradient_band_rect_axis (direction : GradientDirection) (region : Rectf)
    (n i : ℤ) (hn : 0 < n) (hi : 0 ≤ i) (hP : 0 ≤ gradAxisP2 direction region) :
    gradAxisStart direction (gradient_band_rect direction region n i)
        = castInt (gradAxisP2 direction region * (i : ℚ) / (n : ℚ))
    ∧ gradAxisStart direction (gradient_band_rect direction region n i)
        + gradAxisExtent direction (gradient_band_rect direction region n i)
        = castInt (gradAxisP2 direction region * ((i : ℚ) + 1) / (n : ℚ)) := by
  by_cases hv : direction = .vertical ∨ direction = .vertical_sector
  · rw [gradAxisP2, if_pos hv] at hP ⊢
    simp only [gradient_band_rect, gradAxisStart, gradAxisExtent, if_pos hv]
    exact ⟨trivial, castInt_band_chain n i hn hi hP⟩
  · rw [gradAxisP2, if_neg hv] at hP ⊢
    simp only [gradient_band_rect, gradAxisStart, gradAxisExtent, if_neg hv]
    exact ⟨trivial, castInt_band_chain n i hn hi hP⟩

theorem draw_gradient_get (top bottom : Color) (direction : GradientDirection)
    (region : Rectf) (i : ℕ) (h : i < (draw_gradient top bottom direction region).length) :
    (draw_gradient top bottom direction region).get ⟨i, h⟩
      = (gradient_band_rect direction region (gradient_steps top bottom) (i : ℤ),
         gradient_band_color top bottom direction region (gradient_steps top bottom) (i : ℤ)) := by
  simp [draw_gradient]

/-- C10: the bands of `draw_gradient` are contiguous along the gradient axis
whenever the region's p2 coordinates are non-negative: the first band starts
at 0, band i+1 starts exactly where band i ends, and the last band ends at
the truncated-to-integer value of the region's p2 coordinate on that axis. -/
theorem draw_gradient_bands_contiguous (top bottom : Color)
    (direction : GradientDirection) (region : Rectf)
    (hx : 0 ≤ region.p2x) (hy : 0 ≤ region.p2y) :
    (∀ h0 : 0 < (draw_gradient top bottom direction region).length,
       gradAxisStart direction
         ((draw_gradient top bottom direction region).get ⟨0, h0⟩).1 = 0)
    ∧ (∀ (i : ℕ) (h1 : i + 1 < (draw_gradient top bottom direction region).length),
       gradAxisStart direction
           ((draw_gradient top bottom direction region).get ⟨i + 1, h1⟩).1
         = gradAxisStart direction
             ((draw_gradient top bottom direction region).get ⟨i, Nat.lt_of_succ_lt h1⟩).1
           + gradAxisExtent direction
             ((draw_gradient top bottom direction region).get ⟨i, Nat.lt_of_succ_lt h1⟩).1)
    ∧ (∀ h0 : 0 < (draw_gradient top bottom direction region).length,
       gradAxisStart direction
           ((draw_gradient top bottom direction region).get
             ⟨(draw_gradient top bottom direction region).length - 1, by omega⟩).1
         + gradAxisExtent direction
             ((draw_gradient top bottom direction region).get
               ⟨(draw_gradient top bottom direction region).length - 1, by omega⟩).1
         = castInt (gradAxisP2 direction region)) := by
  have hP : 0 ≤ gradAxisP2 direction region := by
    rw [gradAxisP2]
    split <;> assumption
  have hn := gradient_steps_pos top bottom
  have hn' : ((gradient_steps top bottom : ℤ) : ℚ) ≠ 0 := by
    exact_mod_cast hn.ne.symm
  refine ⟨?_, ?_, ?_⟩
  · intro h0
    rw [draw_gradient_get]
    dsimp only
    rw [Nat.cast_zero,
      (gradient_band_rect_axis direction region _ 0 hn le_rfl hP).1]
    push_cast
    norm_num [castInt]
  · intro i h1
    rw [draw_gradient_get, draw_gradient_get]
    dsimp only
    rw [(gradient_band_rect_axis direction region _ (i : ℤ) hn (by positivity) hP).2,
        (gradient_band_rect_axis direction region _ (((i : ℕ) + 1 : ℕ) : ℤ) hn (by positivity) hP).1]
    congr 2
    push_cast
    ring
  · intro h0
    rw [draw_gradient_get]
    dsimp only
    rw [draw_gradient_length]
    rw [(gradient_band_rect_axis direction region _
          (((gradient_steps top bottom).toNat - 1 : ℕ) : ℤ) hn (by positivity) hP).2]
    have h1 : (1 : ℕ) ≤ (gradient_steps top bottom).toNat := by
      rw [draw_gradient_length] at h0
      omega
    have hcast : ((((gradient_steps top bottom).toNat - 1 : ℕ) : ℤ) : ℚ) + 1
        = ((gradient_steps top bottom : ℤ) : ℚ) := by
      have h2 : (((gradient_steps top bottom).toNat - 1 : ℕ) : ℤ)
          = gradient_steps top bottom - 1 := by omega
      rw [h2]
      push_cast
      ring
    rw [hcast, mul_div_assoc, div_self hn', mul_one]

/-- Witness for C10: for a black-to-white vertical gradient over the region
(0,0)-(4,7) the first emitted band starts at coordinate 0. -/
theorem draw_gradient_bands_contiguous_witness :
    gradAxisStart .vertical
      ((draw_gradient ⟨0, 0, 0, 1⟩ ⟨1, 1, 1, 1⟩ .vertical ⟨0, 0, 4, 7⟩).get
        ⟨0, by
          rw [draw_gradient_length, gradient_steps]
          norm_num [max_channel_delta, castInt]⟩).1 = 0 :=
  (draw_gradient_bands_contiguous ⟨0, 0, 0, 1⟩ ⟨1, 1, 1, 1⟩ .vertical ⟨0, 0, 4, 7⟩
    (by norm_num) (by norm_num)).1 _

/-- C6: the effective corner radius of `draw_filled_rect` is the minimum of
the requested radius and the half-width and half-height of the rectangle,
and when it is 0 and the rectangle has positive width and height the
operation issues exactly one full-rectangle fill and no tessellation. -/
theorem draw_filled_rect_radius (sq : ℚ → ℚ) (request : FillRectRequest) :
    effective_radius request
      = min (castInt request.radius)
          (min (Int.tdiv (castInt request.sizex) 2) (Int.tdiv (castInt request.sizey) 2))
    ∧ (effective_radius request = 0 →
        0 < castInt request.sizex → 0 < castInt request.sizey →
        draw_filled_rect sq request = .single (fill_rect_sdl request) (colorU8 request.color)) := by
  constructor
  · rw [effective_radius, fill_rect_sdl]
    dsimp only
    rw [min_comm, min_comm (Int.tdiv (castInt request.sizey) 2)]
  · intro hr hw hh
    rw [draw_filled_rect]
    simp only [hr, ne_eq, not_true_eq_false, if_false]
    have hcond : (fill_rect_sdl request).w ≠ 0 ∧ (fill_rect_sdl request).h ≠ 0 := by
      simp only [fill_rect_sdl]
      exact ⟨by omega, by omega⟩
    rw [if_pos hcond]

/-- Witness for C6: for a 10×8 rectangle with requested radius 0 at position
(3,4), the operation is a single full-rectangle fill. -/
theorem draw_filled_rect_radius_witness :
    draw_filled_rect (fun q => q) ⟨3, 4, 10, 8, 0, ⟨1, 0, 0, 1⟩⟩
      = .single (fill_rect_sdl ⟨3, 4, 10, 8, 0, ⟨1, 0, 0, 1⟩⟩)
          (colorU8 ⟨1, 0, 0, 1⟩) :=
  (draw_filled_rect_radius (fun q => q) ⟨3, 4, 10, 8, 0, ⟨1, 0, 0, 1⟩⟩).2
    (by norm_num [effective_radius, fill_rect_sdl, castInt]; decide)
    (by norm_num [castInt]) (by norm_num [castInt])

/-- C7: running the commands of `SDLPainter::clear` with the painter's stored
clip rectangle matching the backend clip state: when a clip rectangle is set,
exactly the pixels inside it become the clear color and every pixel outside
is unchanged; when no clip rectangle is set, every pixel of the render target
becomes the clear color — in both cases independently of whatever blend mode
(and blending arithmetic) was left over in the backend state. -/
theorem SDLPainter_clear_effect
    (combine : SDLBlendMode → SDLColor → SDLColor → SDLColor)
    (s : BackendState) (color : Color) :
    (∀ r, s.clip = Option.some r →
      (∀ px py, r.memB px py = true →
        (runCmds combine s (SDLPainter_clear s.clip color)).fb px py = colorU8 color) ∧
      (∀ px py, r.memB px py = false →
        (runCmds combine s (SDLPainter_clear s.clip color)).fb px py = s.fb px py)) ∧
    (s.clip = Option.none →
      ∀ px py, (runCmds combine s (SDLPainter_clear s.clip color)).fb px py = colorU8 color) := by
  constructor
  · intro r hclip
    rw [hclip]
    constructor
    · intro px py hmem
      simp [runCmds, SDLPainter_clear, applyCmd, hclip, hmem, inClip]
    · intro px py hmem
      simp [runCmds, SDLPainter_clear, applyCmd, hclip, hmem, inClip]
  · intro hclip
    intro px py
    rw [hclip]
    simp [runCmds, SDLPainter_clear, applyCmd]

/-- Witness for C7: with a stored 2×2 clip rectangle at the origin over an
all-black framebuffer and a stale ADD blend mode, clearing with opaque white
recolors the pixel (1,1) inside the clip. -/
theorem SDLPainter_clear_effect_witness :
    (runCmds (fun _ _ c => c)
        ⟨fun _ _ => ⟨0, 0, 0, 255⟩, ⟨0, 0, 0, 255⟩, .add, Option.some ⟨0, 0, 2, 2⟩⟩
        (SDLPainter_clear (Option.some ⟨0, 0, 2, 2⟩) ⟨1, 1, 1, 1⟩)).fb 1 1
      = colorU8 ⟨1, 1, 1, 1⟩ :=
  ((SDLPainter_clear_effect (fun _ _ c => c)
      ⟨fun _ _ => ⟨0, 0, 0, 255⟩, ⟨0, 0, 0, 255⟩, .add, Option.some ⟨0, 0, 2, 2⟩⟩
      ⟨1, 1, 1, 1⟩).1 ⟨0, 0, 2, 2⟩ rfl).1 1 1 (by decide)

/-- C9 (the code as written): when the backend read fails, `get_pixel` does
log exactly one diagnostic, but it does not leave the output color slot
unchanged: it overwrites it with `Color::from_rgb888` applied to the stale
buffer contents.  Evaluated at the failing input: read failure, zeroed stale
buffer, previous slot color opaque red — the slot becomes black. -/
theorem get_pixel_failure_overwrites :
    (get_pixel false (0, 0, 0, 0) (0, 0, 0, 0) ⟨1, 0, 0, 1⟩).2 = 1 ∧
    (get_pixel false (0, 0, 0, 0) (0, 0, 0, 0) ⟨1, 0, 0, 1⟩).1 = ⟨0, 0, 0, 1⟩ ∧
    (get_pixel false (0, 0, 0, 0) (0, 0, 0, 0) ⟨1, 0, 0, 1⟩).1 ≠ ⟨1, 0, 0, 1⟩ := by
  refine ⟨rfl, ?_, ?_⟩
  · rw [get_pixel]
    simp only [if_neg (Bool.false_ne_true)]
    rw [from_rgb888]
    norm_num
  · rw [get_pixel]
    simp only [if_neg (Bool.false_ne_true)]
    rw [from_rgb888]
    intro h
    have := congrArg Color.red h
    norm_num at this

theorem containsPoint_iff (r : Rect) (x y : Int) :
    r.containsPoint x y = true ↔
      r.left ≤ x ∧ x < r.right ∧ r.top ≤ y ∧ y < r.bottom := by
  simp [Rect.containsPoint, and_assoc]

theorem translate_containsPoint (r : Rect) (off : Int × Int) (x y : Int) :
    (r.translate off).containsPoint x y = true ↔
      r.left + off.1 ≤ x ∧ x < r.right + off.1 ∧ r.top + off.2 ≤ y ∧ y < r.bottom + off.2 := by
  simp [Rect.translate, containsPoint_iff]

theorem ofSize_get_width (x y w h : Int) : (Rect.ofSize x y w h).get_width = w := by
  simp [Rect.ofSize, Rect.get_width]

theorem ofSize_get_height (x y w h : Int) : (Rect.ofSize x y w h).get_height = h := by
  simp [Rect.ofSize, Rect.get_height]

/-- The wrapped copy of a remainder rectangle, translated by the offset that
`render_texture_t` accumulates for it, is the remainder rectangle translated
by the parent offset: wrapping changes only the coordinate space. -/
theorem wrap_translate (m1 m2 : Int) (r : Rect) (off : Int × Int) :
    (Rect.ofSize m1 m2 r.get_width r.get_height).translate
        (off.1 + (r.left - m1), off.2 + (r.top - m2))
      = r.translate off := by
  simp only [Rect.ofSize, Rect.translate, Rect.get_width, Rect.get_height, Rect.mk.injEq]
  refine ⟨by ring, by ring, by ring, by ring⟩

/-- Growth of the truncating affine map `u ↦ (u·dW).tdiv sW` under
`0 < sW ≤ dW`: moving the numerator from `u` to `v ≥ u` moves the image by
at least `v - u`. -/
theorem tdiv_scale_grow (sW dW u v : Int) (hs : 0 < sW) (hle : sW ≤ dW)
    (hu : 0 ≤ u) (huv : u ≤ v) :
    Int.tdiv (u * dW) sW + (v - u) ≤ Int.tdiv (v * dW) sW := by
  have h1 : u * dW + (v - u) * sW ≤ v * dW := by nlinarith
  have h2 : Int.tdiv (u * dW + (v - u) * sW) sW ≤ Int.tdiv (v * dW) sW :=
    Int.tdiv_le_tdiv_of_le sW hs h1
  have h3 : Int.tdiv (u * dW + (v - u) * sW) sW = Int.tdiv (u * dW) sW + (v - u) := by
    have hn : 0 ≤ u * dW := mul_nonneg hu (by omega)
    rw [Int.tdiv_eq_ediv (by nlinarith) hs.le, Int.tdiv_eq_ediv hn hs.le,
      Int.add_mul_ediv_right _ _ hs.ne.symm]
  omega

/-- The destination rectangle computed by `relative_map` is at least as wide
as the source piece, provided the destination is at least as wide as the
source rectangle. -/
theorem relative_map_width_ge (piece s d : Rect) (hsw : 0 < s.get_width)
    (hdw : s.get_width ≤ d.get_width) (hu : s.left ≤ piece.left)
    (hv : piece.left ≤ piece.right) :
    piece.get_width ≤ (relative_map piece s d).get_width := by
  have := tdiv_scale_grow s.get_width d.get_width
    (piece.left - s.left) (piece.right - s.left) hsw hdw (by omega) (by omega)
  simp only [relative_map, Rect.get_width] at this ⊢
  omega

/-- The destination rectangle computed by `relative_map` is at least as tall
as the source piece, provided the destination is at least as tall as the
source rectangle. -/
theorem relative_map_height_ge (piece s d : Rect) (hsh : 0 < s.get_height)
    (hdh : s.get_height ≤ d.get_height) (hu : s.top ≤ piece.top)
    (hv : piece.top ≤ piece.bottom) :
    piece.get_height ≤ (relative_map piece s d).get_height := by
  have := tdiv_scale_grow s.get_height d.get_height
    (piece.top - s.top) (piece.bottom - s.top) hsh hdh (by omega) (by omega)
  simp only [relative_map, Rect.get_height] at this ⊢
  omega

/-- The recursive call that `render_texture_t` makes for one remainder
rectangle satisfies the tiling invariant for that remainder rectangle
(stated against the induction hypothesis `ih` for the smaller fuel). -/
theorem rest_call_spec (W H : Int) (hW : 0 < W) (hH : 0 < H) (fuel : Nat)
    (ih : ∀ (src dst : Rect) (off : Int × Int) (lst : List (Rect × Rect × Rect)),
        0 ≤ src.left → src.left < W → 0 ≤ src.top → src.top < H →
        W ∣ off.1 → H ∣ off.2 →
        (src.empty = false →
          src.get_width ≤ dst.get_width ∧ src.get_height ≤ dst.get_height) →
        render_texture_t fuel ⟨0, 0, W, H⟩ src dst off = some lst →
        TileOutput W H src off lst)
    (rect src dst : Rect) (off : Int × Int) (lst : List (Rect × Rect × Rect))
    (hsleft : src.left ≤ rect.left) (hstop : src.top ≤ rect.top)
    (hsW : 0 < src.get_width) (hsH : 0 < src.get_height)
    (hszW : src.get_width ≤ dst.get_width) (hszH : src.get_height ≤ dst.get_height)
    (hoW : W ∣ off.1) (hoH : H ∣ off.2)
    (heq : render_texture_t fuel ⟨0, 0, W, H⟩
        (Rect.ofSize (positive_mod rect.left (Rect.get_width ⟨0, 0, W, H⟩))
                     (positive_mod rect.top (Rect.get_height ⟨0, 0, W, H⟩))
                     rect.get_width rect.get_height)
        (relative_map rect src dst)
        (off.1 + (rect.left - positive_mod rect.left (Rect.get_width ⟨0, 0, W, H⟩)),
         off.2 + (rect.top - positive_mod rect.top (Rect.get_height ⟨0, 0, W, H⟩)))
        = some lst) :
    TileOutput W H rect off lst := by
  have hw0 : Rect.get_width ⟨0, 0, W, H⟩ = W := by simp [Rect.get_width]
  have hh0 : Rect.get_height ⟨0, 0, W, H⟩ = H := by simp [Rect.get_height]
  rw [hw0, hh0] at heq
  have hm1a : 0 ≤ positive_mod rect.left W := Int.emod_nonneg _ hW.ne.symm
  have hm1b : positive_mod rect.left W < W := Int.emod_lt_of_pos _ hW
  have hm2a : 0 ≤ positive_mod rect.top H := Int.emod_nonneg _ hH.ne.symm
  have hm2b : positive_mod rect.top H < H := Int.emod_lt_of_pos _ hH
  have hdvd1 : W ∣ off.1 + (rect.left - positive_mod rect.left W) :=
    dvd_add hoW (Int.dvd_sub_of_emod_eq rfl)
  have hdvd2 : H ∣ off.2 + (rect.top - positive_mod rect.top H) :=
    dvd_add hoH (Int.dvd_sub_of_emod_eq rfl)
  have hsz : (Rect.ofSize (positive_mod rect.left W) (positive_mod rect.top H)
        rect.get_width rect.get_height).empty = false →
      (Rect.ofSize (positive_mod rect.left W) (positive_mod rect.top H)
        rect.get_width rect.get_height).get_width ≤ (relative_map rect src dst).get_width
      ∧ (Rect.ofSize (positive_mod rect.left W) (positive_mod rect.top H)
        rect.get_width rect.get_height).get_height
          ≤ (relative_map rect src dst).get_height := by
    intro hne
    rw [ofSize_get_width, ofSize_get_height]
    simp only [Rect.empty, ofSize_get_width, ofSize_get_height,
      Bool.or_eq_false_iff, decide_eq_false_iff_not, not_le] at hne
    constructor
    · exact relative_map_width_ge rect src dst hsW hszW hsleft
        (by have := hne.1; simp only [Rect.get_width] at this; omega)
    · exact relative_map_height_ge rect src dst hsH hszH hstop
        (by have := hne.2; simp only [Rect.get_height] at this; omega)
  have hout := ih _ _ _ _ hm1a hm1b hm2a hm2b hdvd1 hdvd2 hsz heq
  obtain ⟨cov, pw, hmod⟩ := hout
  refine ⟨?_, pw, hmod⟩
  intro x y
  rw [← wrap_translate (positive_mod rect.left W) (positive_mod rect.top H) rect off]
  exact cov x y

/-- Master invariant of the wraparound recursion: under the top-left-in-bounds
precondition, with a destination at least as large as the source, every
successful run of `render_texture_t` tiles the (translated) source rectangle
with the original-space rectangles of its emitted blits, and wraps each into
texture space by floored modulo. -/
theorem render_texture_t_tiles (W H : Int) (hW : 0 < W) (hH : 0 < H) :
    ∀ (fuel : Nat) (src dst : Rect) (off : Int × Int) (lst : List (Rect × Rect × Rect)),
      0 ≤ src.left → src.left < W → 0 ≤ src.top → src.top < H →
      W ∣ off.1 → H ∣ off.2 →
      (src.empty = false →
        src.get_width ≤ dst.get_width ∧ src.get_height ≤ dst.get_height) →
      render_texture_t fuel ⟨0, 0, W, H⟩ src dst off = some lst →
      TileOutput W H src off lst := by
  intro fuel
  induction fuel with
  | zero =>
    intro src dst off lst _ _ _ _ _ _ _ heq
    rw [render_texture_t] at heq
    exact Option.noConfusion heq
  | succ fuel IH =>
    intro src dst off lst hl hlW ht htH hoW hoH hsz heq
    rw [render_texture_t] at heq
    by_cases hE : (src.empty || dst.empty) = true
    · rw [if_pos hE] at heq
      injection heq with h
      subst h
      refine ⟨?_, List.Pairwise.nil, by intro t htm; cases htm⟩
      intro x y
      constructor
      · intro hp
        exfalso
        rw [Bool.or_eq_true] at hE
        rw [translate_containsPoint] at hp
        have hsef : src.empty = true → False := by
          intro hq
          simp only [Rect.empty, Rect.get_width, Rect.get_height, Bool.or_eq_true,
            decide_eq_true_eq] at hq
          omega
        rcases hE with hse | hde
        · exact hsef hse
        · have hsf : src.empty = false := by
            revert hsef; cases src.empty <;> simp
          obtain ⟨h1, h2⟩ := hsz hsf
          simp only [Rect.empty, Rect.get_width, Rect.get_height, Bool.or_eq_true,
            decide_eq_true_eq] at hde
          have hsf2 := hsf
          simp only [Rect.empty, Rect.get_width, Rect.get_height, Bool.or_eq_false_iff,
            decide_eq_false_iff_not, not_le] at hsf2
          simp only [Rect.get_width, Rect.get_height] at h1 h2
          omega
      · rintro ⟨t, htm, _⟩
        cases htm
    · rw [if_neg hE] at heq
      by_cases hC : (Rect.containsRect ⟨0, 0, W, H⟩ src) = true
      · rw [if_pos hC] at heq
        injection heq with h
        subst h
        refine ⟨?_, List.pairwise_singleton _ _, ?_⟩
        · intro x y
          constructor
          · intro hp
            exact ⟨(src.translate off, src, dst), List.mem_singleton_self _, hp⟩
          · rintro ⟨t, htm, hp⟩
            rw [List.mem_singleton] at htm
            subst htm
            exact hp
        · intro t htm
          rw [List.mem_singleton] at htm
          subst htm
          obtain ⟨k1, hk1⟩ := hoW
          obtain ⟨k2, hk2⟩ := hoH
          refine ⟨?_, ?_, ?_, ?_⟩
          · show src.left = positive_mod (src.left + off.1) W
            rw [positive_mod, hk1, Int.add_mul_emod_self_left, Int.emod_eq_of_lt hl hlW]
          · show src.top = positive_mod (src.top + off.2) H
            rw [positive_mod, hk2, Int.add_mul_emod_self_left, Int.emod_eq_of_lt ht htH]
          · show src.get_width = (src.translate off).get_width
            simp [Rect.translate, Rect.get_width]
          · show src.get_height = (src.translate off).get_height
            simp [Rect.translate, Rect.get_height]
      · rw [if_neg hC] at heq
        have hse : src.empty = false := by
          revert hE; cases src.empty <;> cases dst.empty <;> simp
        have hde : dst.empty = false := by
          revert hE; cases src.empty <;> cases dst.empty <;> simp
        obtain ⟨hszW, hszH⟩ := hsz hse
        have hse2 := hse
        simp only [Rect.empty, Bool.or_eq_false_iff, decide_eq_false_iff_not, not_le] at hse2
        have hsW : 0 < src.get_width := hse2.1
        have hsH : 0 < src.get_height := hse2.2
        revert heq
        rcases hi : intersect src ⟨0, 0, W, H⟩ with ⟨inside, rest0, rest1, rest2, rest3⟩
        intro heq
        rw [intersect] at hi
        injection hi with h_in h2
        injection h2 with h_r0 h2
        injection h2 with h_r1 h2
        injection h2 with h_r2 h_r3
        subst h_in h_r0 h_r1 h_r2 h_r3
        simp only [] at heq
        obtain ⟨l0, h0, heq⟩ := Option.bind_eq_some.mp heq
        obtain ⟨l1, h1, heq⟩ := Option.bind_eq_some.mp heq
        obtain ⟨l2, h2, heq⟩ := Option.bind_eq_some.mp heq
        obtain ⟨l3, h3, heq⟩ := Option.bind_eq_some.mp heq
        obtain ⟨l4, h4, heq⟩ := Option.bind_eq_some.mp heq
        injection heq with h
        subst h
        have t0 : TileOutput W H
            ⟨src.left ⊔ 0, src.top ⊔ 0, src.right ⊓ W, src.bottom ⊓ H⟩ off l0 := by
          apply IH _ _ _ _ ?_ ?_ ?_ ?_ hoW hoH ?_ h0
          · show (0 : ℤ) ≤ src.left ⊔ 0
            omega
          · show src.left ⊔ 0 < W
            omega
          · show (0 : ℤ) ≤ src.top ⊔ 0
            omega
          · show src.top ⊔ 0 < H
            omega
          · intro hne
            simp only [Rect.empty, Rect.get_width, Rect.get_height, Bool.or_eq_false_iff,
              decide_eq_false_iff_not, not_le] at hne
            constructor
            · exact relative_map_width_ge _ src dst hsW hszW
                (by show src.left ≤ src.left ⊔ 0; omega)
                (by show src.left ⊔ 0 ≤ src.right ⊓ W; omega)
            · exact relative_map_height_ge _ src dst hsH hszH
                (by show src.top ≤ src.top ⊔ 0; omega)
                (by show src.top ⊔ 0 ≤ src.bottom ⊓ H; omega)
        have t1 : TileOutput W H ⟨src.left, src.top, src.right, 0⟩ off l1 :=
          rest_call_spec W H hW hH fuel IH ⟨src.left, src.top, src.right, 0⟩ src dst off l1
            le_rfl le_rfl hsW hsH hszW hszH hoW hoH h1
        have t2 : TileOutput W H ⟨src.left, src.top ⊔ 0, 0, src.bottom ⊓ H⟩ off l2 :=
          rest_call_spec W H hW hH fuel IH ⟨src.left, src.top ⊔ 0, 0, src.bottom ⊓ H⟩
            src dst off l2 le_rfl (le_max_left _ _) hsW hsH hszW hszH hoW hoH h2
        have t3 : TileOutput W H ⟨W, src.top ⊔ 0, src.right, src.bottom ⊓ H⟩ off l3 :=
          rest_call_spec W H hW hH fuel IH ⟨W, src.top ⊔ 0, src.right, src.bottom ⊓ H⟩
            src dst off l3 hlW.le (le_max_left _ _) hsW hsH hszW hszH hoW hoH h3
        have t4 : TileOutput W H ⟨src.left, H, src.right, src.bottom⟩ off l4 :=
          rest_call_spec W H hW hH fuel IH ⟨src.left, H, src.right, src.bottom⟩
            src dst off l4 le_rfl htH.le hsW hsH hszW hszH hoW hoH h4
        obtain ⟨cov0, pw0, mod0⟩ := t0
        obtain ⟨cov1, pw1, mod1⟩ := t1
        obtain ⟨cov2, pw2, mod2⟩ := t2
        obtain ⟨cov3, pw3, mod3⟩ := t3
        obtain ⟨cov4, pw4, mod4⟩ := t4
        have eTop : ∀ x y,
            ¬((⟨src.left, src.top, src.right, 0⟩ : Rect).translate off).containsPoint x y = true := by
          intro x y h
          simp only [translate_containsPoint] at h
          omega
        have eLeft : ∀ x y,
            ¬((⟨src.left, src.top ⊔ 0, 0, src.bottom ⊓ H⟩ : Rect).translate off).containsPoint x y = true := by
          intro x y h
          simp only [translate_containsPoint] at h
          omega
        refine ⟨?_, ?_, ?_⟩
        · intro x y
          constructor
          · intro hp
            have hsplit :
                ((⟨src.left ⊔ 0, src.top ⊔ 0, src.right ⊓ W, src.bottom ⊓ H⟩ : Rect).translate off).containsPoint x y = true
                ∨ ((⟨W, src.top ⊔ 0, src.right, src.bottom ⊓ H⟩ : Rect).translate off).containsPoint x y = true
                ∨ ((⟨src.left, H, src.right, src.bottom⟩ : Rect).translate off).containsPoint x y = true := by
              simp only [translate_containsPoint] at hp ⊢
              omega
            rcases hsplit with h | h | h
            · obtain ⟨t, htl, hpt⟩ := (cov0 x y).mp h
              exact ⟨t, by simp [List.mem_append, htl], hpt⟩
            · obtain ⟨t, htl, hpt⟩ := (cov3 x y).mp h
              exact ⟨t, by simp [List.mem_append, htl], hpt⟩
            · obtain ⟨t, htl, hpt⟩ := (cov4 x y).mp h
              exact ⟨t, by simp [List.mem_append, htl], hpt⟩
          · rintro ⟨t, htl, hpt⟩
            simp only [List.mem_append] at htl
            simp only [translate_containsPoint]
            rcases htl with ((((h | h) | h) | h) | h)
            · have := (cov0 x y).mpr ⟨t, h, hpt⟩
              simp only [translate_containsPoint] at this
              omega
            · exact absurd ((cov1 x y).mpr ⟨t, h, hpt⟩) (eTop x y)
            · exact absurd ((cov2 x y).mpr ⟨t, h, hpt⟩) (eLeft x y)
            · have := (cov3 x y).mpr ⟨t, h, hpt⟩
              simp only [translate_containsPoint] at this
              omega
            · have := (cov4 x y).mpr ⟨t, h, hpt⟩
              simp only [translate_containsPoint] at this
              omega
        · have hcross : ∀ (Ra : Rect) (la : List (Rect × Rect × Rect))
              (Rb : Rect) (lb : List (Rect × Rect × Rect)),
              (∀ x y, (Ra.translate off).containsPoint x y = true ↔
                ∃ t ∈ la, t.1.containsPoint x y = true) →
              (∀ x y, (Rb.translate off).containsPoint x y = true ↔
                ∃ t ∈ lb, t.1.containsPoint x y = true) →
              (∀ x y, ¬((Ra.translate off).containsPoint x y = true
                  ∧ (Rb.translate off).containsPoint x y = true)) →
              ∀ a ∈ la, ∀ b ∈ lb, ∀ x y,
                ¬(a.1.containsPoint x y = true ∧ b.1.containsPoint x y = true) := by
            intro Ra la Rb lb ca cb hdisj a ha b hb x y hab
            exact hdisj x y ⟨(ca x y).mpr ⟨a, ha, hab.1⟩, (cb x y).mpr ⟨b, hb, hab.2⟩⟩
          have d03 : ∀ x y,
              ¬(((⟨src.left ⊔ 0, src.top ⊔ 0, src.right ⊓ W, src.bottom ⊓ H⟩ : Rect).translate off).containsPoint x y = true
                ∧ ((⟨W, src.top ⊔ 0, src.right, src.bottom ⊓ H⟩ : Rect).translate off).containsPoint x y = true) := by
            intro x y hab
            obtain ⟨ha, hb⟩ := hab
            simp only [translate_containsPoint] at ha hb
            omega
          have d04 : ∀ x y,
              ¬(((⟨src.left ⊔ 0, src.top ⊔ 0, src.right ⊓ W, src.bottom ⊓ H⟩ : Rect).translate off).containsPoint x y = true
                ∧ ((⟨src.left, H, src.right, src.bottom⟩ : Rect).translate off).containsPoint x y = true) := by
            intro x y hab
            obtain ⟨ha, hb⟩ := hab
            simp only [translate_containsPoint] at ha hb
            omega
          have d34 : ∀ x y,
              ¬(((⟨W, src.top ⊔ 0, src.right, src.bottom ⊓ H⟩ : Rect).translate off).containsPoint x y = true
                ∧ ((⟨src.left, H, src.right, src.bottom⟩ : Rect).translate off).containsPoint x y = true) := by
            intro x y hab
            obtain ⟨ha, hb⟩ := hab
            simp only [translate_containsPoint] at ha hb
            omega
          refine List.pairwise_append.mpr ⟨List.pairwise_append.mpr ⟨List.pairwise_append.mpr
            ⟨List.pairwise_append.mpr ⟨pw0, pw1, ?_⟩, pw2, ?_⟩, pw3, ?_⟩, pw4, ?_⟩
          · exact hcross _ _ _ _ cov0 cov1 (fun x y hab => eTop x y hab.2)
          · intro a ha b hb
            simp only [List.mem_append] at ha
            rcases ha with h | h
            · exact hcross _ _ _ _ cov0 cov2 (fun x y hab => eLeft x y hab.2) a h b hb
            · exact hcross _ _ _ _ cov1 cov2 (fun x y hab => eTop x y hab.1) a h b hb
          · intro a ha b hb
            simp only [List.mem_append] at ha
            rcases ha with (h | h) | h
            · exact hcross _ _ _ _ cov0 cov3 d03 a h b hb
            · exact hcross _ _ _ _ cov1 cov3 (fun x y hab => eTop x y hab.1) a h b hb
            · exact hcross _ _ _ _ cov2 cov3 (fun x y hab => eLeft x y hab.1) a h b hb
          · intro a ha b hb
            simp only [List.mem_append] at ha
            rcases ha with ((h | h) | h) | h
            · exact hcross _ _ _ _ cov0 cov4 d04 a h b hb
            · exact hcross _ _ _ _ cov1 cov4 (fun x y hab => eTop x y hab.1) a h b hb
            · exact hcross _ _ _ _ cov2 cov4 (fun x y hab => eLeft x y hab.1) a h b hb
            · exact hcross _ _ _ _ cov3 cov4 d34 a h b hb
        · intro t htl
          simp only [List.mem_append] at htl
          rcases htl with ((((h | h) | h) | h) | h)
          · exact mod0 t h
          · exact mod1 t h
          · exact mod2 t h
          · exact mod3 t h
          · exact mod4 t h

theorem Rect.translate_zero (r : Rect) : r.translate (0, 0) = r := by
  simp [Rect.translate]

/-- Counterexample for C1: texture bounds 1×1, src_rect = [0,2)×[0,1) with its
top-left corner (0,0) inside bounds, dst_rect = [0,1)×[0,1).  The in-bounds
half [0,1)×[0,1) of src_rect maps to an empty destination rectangle
(integer scaling by dst_width/src_width = 1/2), so its recursive call emits
nothing: the only emitted sub-blit covers the wrapped half [1,2)×[0,1), and
the union of the emitted source rectangles does not cover the point (0,0)
of src_rect.  The claim fails as stated for destinations smaller than the
source. -/
theorem render_texture_tiles_cex :
    render_texture 5 ⟨0, 0, 1, 1⟩ ⟨0, 0, 2, 1⟩ ⟨0, 0, 1, 1⟩
        = some [(⟨0, 0, 1, 1⟩, ⟨0, 0, 1, 1⟩)]
    ∧ render_texture_t 5 ⟨0, 0, 1, 1⟩ ⟨0, 0, 2, 1⟩ ⟨0, 0, 1, 1⟩ (0, 0)
        = some [(⟨1, 0, 2, 1⟩, ⟨0, 0, 1, 1⟩, ⟨0, 0, 1, 1⟩)]
    ∧ Rect.containsPoint ⟨0, 0, 2, 1⟩ 0 0 = true
    ∧ Rect.containsPoint ⟨1, 0, 2, 1⟩ 0 0 = false := by
  decide

/-- C1 (amended): for texture bounds (0,0)-(W,H) of positive size, a
non-empty src_rect whose top-left corner lies within bounds, and a dst_rect
at least as large as src_rect in each dimension, the original-space source
rectangles of the sub-blits recursively emitted by render_texture exactly
tile src_rect — their union covers src_rect and no two of them share a
point — and each emitted texture-space source rectangle is its
original-space rectangle mapped into texture space via floored modulo,
with its size preserved. -/
theorem render_texture_tiles (W H : Int) (src dst : Rect) (fuel : Nat)
    (lst : List (Rect × Rect × Rect))
    (hW : 0 < W) (hH : 0 < H)
    (hsrc : src.empty = false)
    (hl : 0 ≤ src.left) (hlW : src.left < W) (ht : 0 ≤ src.top) (htH : src.top < H)
    (hszW : src.get_width ≤ dst.get_width) (hszH : src.get_height ≤ dst.get_height)
    (heq : render_texture_t fuel ⟨0, 0, W, H⟩ src dst (0, 0) = some lst) :
    (∀ x y, src.containsPoint x y = true ↔ ∃ t ∈ lst, t.1.containsPoint x y = true)
    ∧ lst.Pairwise (fun a b => ∀ x y,
        ¬(a.1.containsPoint x y = true ∧ b.1.containsPoint x y = true))
    ∧ (∀ t ∈ lst, t.2.1.left = positive_mod t.1.left W
        ∧ t.2.1.top = positive_mod t.1.top H
        ∧ t.2.1.get_width = t.1.get_width
        ∧ t.2.1.get_height = t.1.get_height) := by
  obtain ⟨cov, pw, hmod⟩ := render_texture_t_tiles W H hW hH fuel src dst (0, 0) lst
    hl hlW ht htH (dvd_zero W) (dvd_zero H) (fun _ => ⟨hszW, hszH⟩) heq
  rw [Rect.translate_zero] at cov
  exact ⟨cov, pw, hmod⟩

/-- Witness for C1: over a 4×4 texture, src_rect [2,7)×[3,9) decomposes into
six sub-blits; the piece [4,7)×[3,4) is emitted with the wrapped source
rectangle [0,3)×[3,4), which is its floored-modulo image with size kept. -/
theorem render_texture_tiles_witness :
    (⟨0, 3, 3, 4⟩ : Rect).left = positive_mod (⟨4, 3, 7, 4⟩ : Rect).left 4
    ∧ (⟨0, 3, 3, 4⟩ : Rect).top = positive_mod (⟨4, 3, 7, 4⟩ : Rect).top 4
    ∧ (⟨0, 3, 3, 4⟩ : Rect).get_width = (⟨4, 3, 7, 4⟩ : Rect).get_width
    ∧ (⟨0, 3, 3, 4⟩ : Rect).get_height = (⟨4, 3, 7, 4⟩ : Rect).get_height :=
  (render_texture_tiles 4 4 ⟨2, 3, 7, 9⟩ ⟨10, 10, 15, 16⟩ 6
      [(⟨2, 3, 4, 4⟩, ⟨2, 3, 4, 4⟩, ⟨10, 10, 12, 11⟩),
       (⟨4, 3, 7, 4⟩, ⟨0, 3, 3, 4⟩, ⟨12, 10, 15, 11⟩),
       (⟨2, 4, 4, 8⟩, ⟨2, 0, 4, 4⟩, ⟨10, 11, 12, 15⟩),
       (⟨4, 4, 7, 8⟩, ⟨0, 0, 3, 4⟩, ⟨12, 11, 15, 15⟩),
       (⟨2, 8, 4, 9⟩, ⟨2, 0, 4, 1⟩, ⟨10, 15, 12, 16⟩),
       (⟨4, 8, 7, 9⟩, ⟨0, 0, 3, 1⟩, ⟨12, 15, 15, 16⟩)]
      (by decide) (by decide) (by decide) (by decide) (by decide) (by decide)
      (by decide) (by decide) (by decide) (by decide)).2.2
    (⟨4, 3, 7, 4⟩, ⟨0, 3, 3, 4⟩, ⟨12, 10, 15, 11⟩) (by decide)

theorem render_texture_some_of_empty (fuel : Nat) (img src dst : Rect)
    (h : src.empty = true) : ∃ l, render_texture (fuel + 1) img src dst = some l :=
  ⟨[], by rw [render_texture, if_pos (Bool.or_eq_true _ _ |>.mpr (Or.inl h))]⟩

theorem render_texture_some_of_contains (fuel : Nat) (img src dst : Rect)
    (h : img.containsRect src = true) : ∃ l, render_texture (fuel + 1) img src dst = some l := by
  by_cases hE : (src.empty || dst.empty) = true
  · exact ⟨[], by rw [render_texture, if_pos hE]⟩
  · exact ⟨[(src, dst)], by rw [render_texture, if_neg hE, if_pos h]⟩

/-- C2: for texture bounds of positive size W×H and a src_rect whose
top-left corner lies within bounds, the recursion of render_texture
terminates: fuel equal to the number of texture widths spanned by
src_rect.right plus the number of texture heights spanned by
src_rect.bottom, plus two, suffices for the recursion to bottom out
(each recursive remainder rectangle strips off one full texture-size
step). -/
theorem render_texture_terminates (W H : Int) (src dst : Rect) (fuel : Nat)
    (hW : 0 < W) (hH : 0 < H)
    (hl : 0 ≤ src.left) (hlW : src.left < W) (ht : 0 ≤ src.top) (htH : src.top < H)
    (hfuel : src.right.toNat / W.toNat + src.bottom.toNat / H.toNat + 2 ≤ fuel) :
    ∃ lst, render_texture fuel ⟨0, 0, W, H⟩ src dst = some lst := by
  induction fuel generalizing src dst with
  | zero =>
    exfalso
    generalize hA : src.right.toNat / W.toNat = A at hfuel
    generalize hB : src.bottom.toNat / H.toNat = B at hfuel
    omega
  | succ fuel IH =>
    by_cases hE : (src.empty || dst.empty) = true
    · exact ⟨[], by rw [render_texture, if_pos hE]⟩
    · by_cases hC : Rect.containsRect ⟨0, 0, W, H⟩ src = true
      · exact ⟨_, by rw [render_texture, if_neg hE, if_pos hC]⟩
      · rcases fuel with _ | fuel
        · exfalso
          generalize hA : src.right.toNat / W.toNat = A at hfuel
          generalize hB : src.bottom.toNat / H.toNat = B at hfuel
          omega
        · rw [render_texture, if_neg hE, if_neg hC, intersect]
          simp only []
          rw [show Rect.get_width ⟨0, 0, W, H⟩ = W by simp [Rect.get_width],
              show Rect.get_height ⟨0, 0, W, H⟩ = H by simp [Rect.get_height]]
          have hmW : positive_mod W W = 0 := by
            rw [positive_mod, Int.emod_self]
          have hmH : positive_mod H H = 0 := by
            rw [positive_mod, Int.emod_self]
          have hmL : positive_mod src.left W = src.left := by
            rw [positive_mod, Int.emod_eq_of_lt hl hlW]
          have hmT : positive_mod src.top H = src.top := by
            rw [positive_mod, Int.emod_eq_of_lt ht htH]
          have hmT2 : positive_mod (src.top ⊔ 0) H = src.top := by
            rw [positive_mod, max_eq_left ht, Int.emod_eq_of_lt ht htH]
          have e0 : ∃ l, render_texture (fuel + 1) (⟨0, 0, W, H⟩ : Rect)
              ⟨src.left ⊔ 0, src.top ⊔ 0, src.right ⊓ W, src.bottom ⊓ H⟩
              (relative_map ⟨src.left ⊔ 0, src.top ⊔ 0, src.right ⊓ W, src.bottom ⊓ H⟩ src dst)
              = some l := by
            apply render_texture_some_of_contains
            simp only [Rect.containsRect, Bool.and_eq_true, decide_eq_true_eq]
            omega
          have e1 : ∃ l, render_texture (fuel + 1) (⟨0, 0, W, H⟩ : Rect)
              (Rect.ofSize (positive_mod src.left W) (positive_mod src.top H)
                (Rect.get_width ⟨src.left, src.top, src.right, 0⟩)
                (Rect.get_height ⟨src.left, src.top, src.right, 0⟩))
              (relative_map ⟨src.left, src.top, src.right, 0⟩ src dst) = some l := by
            apply render_texture_some_of_empty
            simp only [Rect.empty, Rect.ofSize, Rect.get_width, Rect.get_height,
              Bool.or_eq_true, decide_eq_true_eq]
            omega
          have e2 : ∃ l, render_texture (fuel + 1) (⟨0, 0, W, H⟩ : Rect)
              (Rect.ofSize (positive_mod src.left W) (positive_mod (src.top ⊔ 0) H)
                (Rect.get_width ⟨src.left, src.top ⊔ 0, 0, src.bottom ⊓ H⟩)
                (Rect.get_height ⟨src.left, src.top ⊔ 0, 0, src.bottom ⊓ H⟩))
              (relative_map ⟨src.left, src.top ⊔ 0, 0, src.bottom ⊓ H⟩ src dst) = some l := by
            apply render_texture_some_of_empty
            simp only [Rect.empty, Rect.ofSize, Rect.get_width, Rect.get_height,
              Bool.or_eq_true, decide_eq_true_eq]
            omega
          have e3 : ∃ l, render_texture (fuel + 1) (⟨0, 0, W, H⟩ : Rect)
              (Rect.ofSize (positive_mod W W) (positive_mod (src.top ⊔ 0) H)
                (Rect.get_width ⟨W, src.top ⊔ 0, src.right, src.bottom ⊓ H⟩)
                (Rect.get_height ⟨W, src.top ⊔ 0, src.right, src.bottom ⊓ H⟩))
              (relative_map ⟨W, src.top ⊔ 0, src.right, src.bottom ⊓ H⟩ src dst) = some l := by
            by_cases hRr : src.right ≤ W
            · apply render_texture_some_of_empty
              simp only [Rect.empty, Rect.ofSize, Rect.get_width, Rect.get_height,
                Bool.or_eq_true, decide_eq_true_eq]
              omega
            · apply IH
              · show (0 : ℤ) ≤ positive_mod W W
                rw [hmW]
              · show positive_mod W W < W
                rw [hmW]
                exact hW
              · show (0 : ℤ) ≤ positive_mod (src.top ⊔ 0) H
                rw [hmT2]
                exact ht
              · show positive_mod (src.top ⊔ 0) H < H
                rw [hmT2]
                exact htH
              · show (positive_mod W W + Rect.get_width ⟨W, src.top ⊔ 0, src.right, src.bottom ⊓ H⟩).toNat / W.toNat
                  + (positive_mod (src.top ⊔ 0) H + Rect.get_height ⟨W, src.top ⊔ 0, src.right, src.bottom ⊓ H⟩).toNat / H.toNat
                  + 2 ≤ fuel + 1
                rw [hmW, hmT2]
                simp only [Rect.get_width, Rect.get_height]
                have h1 : (0 + (src.right - W)).toNat = src.right.toNat - W.toNat := by omega
                have h2 : (src.top + (src.bottom ⊓ H - (src.top ⊔ 0))).toNat = (src.bottom ⊓ H).toNat := by omega
                rw [h1, h2]
                have k1 : (src.right.toNat - W.toNat) / W.toNat + 1 = src.right.toNat / W.toNat := by
                  conv_rhs => rw [Nat.div_eq_sub_div (by omega) (by omega : W.toNat ≤ src.right.toNat)]
                have k2 : (src.bottom ⊓ H).toNat / H.toNat ≤ src.bottom.toNat / H.toNat :=
                  Nat.div_le_div_right (Int.toNat_le_toNat (min_le_left _ _))
                generalize hA : src.right.toNat / W.toNat = A at hfuel k1
                generalize hB : src.bottom.toNat / H.toNat = B at hfuel k2
                generalize hA2 : (src.right.toNat - W.toNat) / W.toNat = A2 at k1
                generalize hB2 : (src.bottom ⊓ H).toNat / H.toNat = B2 at k2
                omega
          have e4 : ∃ l, render_texture (fuel + 1) (⟨0, 0, W, H⟩ : Rect)
              (Rect.ofSize (positive_mod src.left W) (positive_mod H H)
                (Rect.get_width ⟨src.left, H, src.right, src.bottom⟩)
                (Rect.get_height ⟨src.left, H, src.right, src.bottom⟩))
              (relative_map ⟨src.left, H, src.right, src.bottom⟩ src dst) = some l := by
            by_cases hBb : src.bottom ≤ H
            · apply render_texture_some_of_empty
              simp only [Rect.empty, Rect.ofSize, Rect.get_width, Rect.get_height,
                Bool.or_eq_true, decide_eq_true_eq]
              omega
            · apply IH
              · show (0 : ℤ) ≤ positive_mod src.left W
                rw [hmL]
                exact hl
              · show positive_mod src.left W < W
                rw [hmL]
                exact hlW
              · show (0 : ℤ) ≤ positive_mod H H
                rw [hmH]
              · show positive_mod H H < H
                rw [hmH]
                exact hH
              · show (positive_mod src.left W + Rect.get_width ⟨src.left, H, src.right, src.bottom⟩).toNat / W.toNat
                  + (positive_mod H H + Rect.get_height ⟨src.left, H, src.right, src.bottom⟩).toNat / H.toNat
                  + 2 ≤ fuel + 1
                rw [hmL, hmH]
                simp only [Rect.get_width, Rect.get_height]
                have h1 : (src.left + (src.right - src.left)).toNat = src.right.toNat := by omega
                have h2 : (0 + (src.bottom - H)).toNat = src.bottom.toNat - H.toNat := by omega
                rw [h1, h2]
                have k1 : (src.bottom.toNat - H.toNat) / H.toNat + 1 = src.bottom.toNat / H.toNat := by
                  conv_rhs => rw [Nat.div_eq_sub_div (by omega) (by omega : H.toNat ≤ src.bottom.toNat)]
                generalize hA : src.right.toNat / W.toNat = A at hfuel
                generalize hB : src.bottom.toNat / H.toNat = B at hfuel k1
                generalize hB2 : (src.bottom.toNat - H.toNat) / H.toNat = B2 at k1
                omega
          obtain ⟨l0, f0⟩ := e0
          obtain ⟨l1, f1⟩ := e1
          obtain ⟨l2, f2⟩ := e2
          obtain ⟨l3, f3⟩ := e3
          obtain ⟨l4, f4⟩ := e4
          refine ⟨l0 ++ l1 ++ l2 ++ l3 ++ l4, ?_⟩
          simp only [f0, f1, f2, f3, f4]
          rfl

/-- Witness for C2: over a 4×4 texture, the recursion for src_rect
[2,7)×[3,9) completes within the fuel bound 7/4 + 9/4 + 2 = 5. -/
theorem render_texture_terminates_witness :
    ∃ lst, render_texture 5 (⟨0, 0, 4, 4⟩ : Rect) ⟨2, 3, 7, 9⟩ ⟨10, 10, 15, 16⟩ = some lst :=
  render_texture_terminates 4 4 ⟨2, 3, 7, 9⟩ ⟨10, 10, 15, 16⟩ 5
    (by decide) (by decide) (by decide) (by decide) (by decide) (by decide) (by decide)

